import Mathlib

set_option maxHeartbeats 1000000

/-! # Verification of the Sudoku backtracking solver

Shallow embedding of `sudoku.py` (`SudokuSolver`) and `sudoku2.py`
(`InteractiveSudokuSolver`).  A grid is a function from a (row, column)
pair to the digit stored there, 0 denoting an empty cell.  The recursive
`solve` / `solve_algorithm` methods are embedded as fuel-indexed
structural recursions (`solveF`); one unit of fuel is consumed per
recursive call, i.e. per additional filled cell, so fuel
`emptyCount g + 1` reflects the recursion-depth bound of the code. -/

/-- A Sudoku grid, mirroring the 9x9 numpy array `self.grid`:
each cell holds a natural number, 0 meaning empty. -/
abbrev Grid := Fin 9 → Fin 9 → Nat

/-- Writing one cell, mirroring the numpy assignment `grid[row, col] = num`. -/
def setCell (g : Grid) (r c : Fin 9) (v : Nat) : Grid :=
  fun i j => if i = r ∧ j = c then v else g i j

/-- The row index `3 * (row // 3) + a` inside the 3x3 box of `x`,
mirroring `box_row, box_col = 3 * (row // 3), 3 * (col // 3)`. -/
def boxIdx (x : Fin 9) (a : Fin 3) : Fin 9 :=
  ⟨3 * (x.val / 3) + a.val, by have hx := x.isLt; have ha := a.isLt; omega⟩

/-- The cell coordinate `3 * b + a` of box-block `b`. -/
def boxCell (b : Fin 3) (a : Fin 3) : Fin 9 :=
  ⟨3 * b.val + a.val, by have hb := b.isLt; have ha := a.isLt; omega⟩

/-- All 81 cell coordinates in row-major order, the order of the nested
loops `for i in range(9): for j in range(9)`. -/
def cells : List (Fin 9 × Fin 9) :=
  (List.finRange 9).flatMap fun i => (List.finRange 9).map fun j => (i, j)

/-- Row-major rank of a coordinate pair. -/
def ord (p : Fin 9 × Fin 9) : Nat := p.1.val * 9 + p.2.val

/-- Number of empty (zero) cells of a grid. -/
def emptyCount (g : Grid) : Nat := cells.countP fun p => g p.1 p.2 == 0

namespace SudokuSolver

/-- Mirrors `SudokuSolver.is_valid`: `num` must occur nowhere in row `row`,
nowhere in column `col`, and nowhere in the 3x3 box with origin
`(3 * (row // 3), 3 * (col // 3))`. -/
def is_valid (g : Grid) (row col : Fin 9) (num : Nat) : Bool :=
  !((List.finRange 9).any fun j => g row j == num) &&
  (!((List.finRange 9).any fun i => g i col == num) &&
   !((List.finRange 3).any fun a =>
      (List.finRange 3).any fun b => g (boxIdx row a) (boxIdx col b) == num))

/-- Mirrors `SudokuSolver.find_empty`: first cell holding 0 in row-major
scan order, or `none` when the grid is full. -/
def find_empty (g : Grid) : Option (Fin 9 × Fin 9) :=
  cells.find? fun p => g p.1 p.2 == 0

/-- One entry of `self.steps`: the tuple `(row, col, num, success)` appended
by `solve`.  `place = true` corresponds to the Python flag `True` used for
placements; backtracking appends `(row, col, 0, False)`. -/
structure Step where
  row : Fin 9
  col : Fin 9
  num : Nat
  place : Bool
deriving DecidableEq, Repr

/-- The digit loop `for num in range(1, 10)` of `SudokuSolver.solve`.
`k` counts the digits still to be tried and `d` is the current digit
(call sites maintain `d + k = 10`); `rec` is the recursive solver applied
to the grid with one more filled cell.  The returned list is the sequence
of steps this loop appends, in order. -/
def tryLoop (rec : Grid → Option (Bool × Grid × List Step)) (r c : Fin 9) :
    Nat → Nat → Grid → Option (Bool × Grid × List Step)
  | 0, _, g => some (false, g, [])
  | k + 1, d, g =>
    if is_valid g r c d then
      match rec (setCell g r c d) with
      | none => none
      | some (ok, g2, tr) =>
        if ok then some (true, g2, ⟨r, c, d, true⟩ :: tr)
        else
          match tryLoop rec r c k (d + 1) (setCell g2 r c 0) with
          | none => none
          | some (ok2, g4, tr2) =>
            some (ok2, g4, ⟨r, c, d, true⟩ :: (tr ++ ⟨r, c, 0, false⟩ :: tr2))
    else tryLoop rec r c k (d + 1) g

/-- Fuel-indexed embedding of `SudokuSolver.solve`.  `none` means the fuel
bound on the recursion depth was exceeded; with fuel `emptyCount g + 1`
this never happens. -/
def solveF : Nat → Grid → Option (Bool × Grid × List Step)
  | 0, _ => none
  | fuel + 1, g =>
    match find_empty g with
    | none => some (true, g, [])
    | some (r, c) => tryLoop (solveF fuel) r c 9 1 g

/-- `SudokuSolver.solve`: the result flag, the final grid (the code mutates
`self.grid` in place) and the recorded `self.steps`. -/
def solve (g : Grid) : Bool × Grid × List Step :=
  (solveF (emptyCount g + 1) g).getD (false, g, [])

end SudokuSolver

namespace InteractiveSudokuSolver

/-- Mirrors `InteractiveSudokuSolver.is_valid` (same body as the
`SudokuSolver` version, with the grid passed explicitly). -/
def is_valid (grid : Grid) (row col : Fin 9) (num : Nat) : Bool :=
  !((List.finRange 9).any fun j => grid row j == num) &&
  (!((List.finRange 9).any fun i => grid i col == num) &&
   !((List.finRange 3).any fun a =>
      (List.finRange 3).any fun b => grid (boxIdx row a) (boxIdx col b) == num))

/-- Mirrors `InteractiveSudokuSolver.find_empty`. -/
def find_empty (grid : Grid) : Option (Fin 9 × Fin 9) :=
  cells.find? fun p => grid p.1 p.2 == 0

/-- One entry of `self.solution_states`: the dict with keys
`grid` (a deep copy of the grid just after the mutation), `row`, `col`,
`num` and `action`; `place = true` renders `action = 'place'`,
`place = false` renders `action = 'backtrack'`. -/
structure State where
  grid : Grid
  row : Fin 9
  col : Fin 9
  num : Nat
  place : Bool
deriving DecidableEq

/-- The digit loop of `InteractiveSudokuSolver.solve_algorithm`; identical
control flow to `SudokuSolver.tryLoop` but each appended state carries a
snapshot of the grid and the backtrack state records the attempted digit. -/
def tryLoop (rec : Grid → Option (Bool × Grid × List State)) (r c : Fin 9) :
    Nat → Nat → Grid → Option (Bool × Grid × List State)
  | 0, _, g => some (false, g, [])
  | k + 1, d, g =>
    if is_valid g r c d then
      match rec (setCell g r c d) with
      | none => none
      | some (ok, g2, tr) =>
        if ok then some (true, g2, ⟨setCell g r c d, r, c, d, true⟩ :: tr)
        else
          match tryLoop rec r c k (d + 1) (setCell g2 r c 0) with
          | none => none
          | some (ok2, g4, tr2) =>
            some (ok2, g4, ⟨setCell g r c d, r, c, d, true⟩ ::
              (tr ++ ⟨setCell g2 r c 0, r, c, d, false⟩ :: tr2))
    else tryLoop rec r c k (d + 1) g

/-- Fuel-indexed embedding of `InteractiveSudokuSolver.solve_algorithm`. -/
def solveF : Nat → Grid → Option (Bool × Grid × List State)
  | 0, _ => none
  | fuel + 1, g =>
    match find_empty g with
    | none => some (true, g, [])
    | some (r, c) => tryLoop (solveF fuel) r c 9 1 g

/-- `InteractiveSudokuSolver.solve_algorithm` run on a grid: result flag,
final grid, and the recorded `self.solution_states`. -/
def solve_algorithm (g : Grid) : Bool × Grid × List State :=
  (solveF (emptyCount g + 1) g).getD (false, g, [])

/-- Projection of a `solution_states` entry to the step tuple recorded by
`SudokuSolver.solve`: the grid snapshot is dropped and a backtrack records
digit 0 instead of the attempted digit. -/
def toStep (s : State) : SudokuSolver.Step :=
  ⟨s.row, s.col, if s.place then s.num else 0, s.place⟩

end InteractiveSudokuSolver

/-! ## Replaying traces -/

/-- Effect of one recorded state on a grid: a place writes its digit, a
backtrack clears the cell to 0. -/
def applyS (g : Grid) (s : InteractiveSudokuSolver.State) : Grid :=
  setCell g s.row s.col (if s.place then s.num else 0)

/-- Replay a sequence of recorded states from a starting grid. -/
def replayStates (g : Grid) (st : List InteractiveSudokuSolver.State) : Grid :=
  st.foldl applyS g

/-- Effect of one recorded step tuple on a grid: a place writes its digit,
a backtrack clears the cell to 0. -/
def applyT (g : Grid) (e : SudokuSolver.Step) : Grid :=
  setCell g e.row e.col (if e.place then e.num else 0)

/-- Replay a sequence of recorded step tuples from a starting grid. -/
def replaySteps (g : Grid) (tr : List SudokuSolver.Step) : Grid :=
  tr.foldl applyT g

/-- The trace is a chain: each recorded state's snapshot is the grid
obtained by applying that event to the previous snapshot (resp. to the
starting grid for the first event). -/
def chainedStates : Grid → List InteractiveSudokuSolver.State → Prop
  | _, [] => True
  | g, s :: rest => (applyS g s = s.grid ∧ chainedStates s.grid rest)

/-- Stack machine matching backtrack states against the place states they
undo: a place pushes its `(row, col, digit)` triple, a backtrack must pop
a frame carrying exactly its own `(row, col, digit)` triple.  Returns the
final stack, or `none` on a mismatch. -/
def popMatchS : List InteractiveSudokuSolver.State →
    List (Fin 9 × Fin 9 × Nat) → Option (List (Fin 9 × Fin 9 × Nat))
  | [], stk => some stk
  | s :: rest, stk =>
    if s.place then popMatchS rest ((s.row, s.col, s.num) :: stk)
    else
      match stk with
      | [] => none
      | f :: stk2 =>
        if f = (s.row, s.col, s.num) then popMatchS rest stk2 else none

/-- Stack machine matching backtrack steps of `SudokuSolver.solve` against
the place steps they undo: the popped frame must carry the same
`(row, col)` and the backtrack step must record digit 0. -/
def popMatchT : List SudokuSolver.Step →
    List (Fin 9 × Fin 9 × Nat) → Option (List (Fin 9 × Fin 9 × Nat))
  | [], stk => some stk
  | e :: rest, stk =>
    if e.place then popMatchT rest ((e.row, e.col, e.num) :: stk)
    else
      match stk with
      | [] => none
      | f :: stk2 =>
        if f.1 = e.row ∧ f.2.1 = e.col ∧ e.num = 0 then popMatchT rest stk2
        else none

/-- Digit discipline of a `solution_states` entry: the recorded digit is
always the attempted digit, in 1..9. -/
def digitOkS (s : InteractiveSudokuSolver.State) : Bool :=
  decide (1 ≤ s.num) && decide (s.num ≤ 9)

/-- Digit discipline of a `self.steps` tuple: places record the digit
(1..9), backtracks record 0. -/
def digitOkT (e : SudokuSolver.Step) : Bool :=
  if e.place then decide (1 ≤ e.num) && decide (e.num ≤ 9) else e.num == 0

/-! ## Validity predicates -/

/-- The digits a solved grid must contain. -/
def digits : List Nat := [1, 2, 3, 4, 5, 6, 7, 8, 9]

/-- The nine cells of box `(br, bc)`. -/
def boxList (br bc : Fin 3) : List (Fin 9 × Fin 9) :=
  (List.finRange 3).flatMap fun a =>
    (List.finRange 3).map fun b => (boxCell br a, boxCell bc b)

/-- The box-block index `x / 3` of a row or column index. -/
def boxOf (x : Fin 9) : Fin 3 :=
  ⟨x.val / 3, by have := x.isLt; omega⟩

/-- Checker for a strictly valid full solution: every row, every column and
every 3x3 box contains each digit 1..9 exactly once. -/
def validSolvedB (g : Grid) : Bool :=
  digits.all fun d =>
    ((List.finRange 9).all fun r =>
      ((List.finRange 9).countP fun c => g r c == d) == 1) &&
    (((List.finRange 9).all fun c =>
      ((List.finRange 9).countP fun r => g r c == d) == 1) &&
     ((List.finRange 3).all fun br => (List.finRange 3).all fun bc =>
      ((boxList br bc).countP fun p => g p.1 p.2 == d) == 1))

/-- Two coordinates share a row, a column, or a 3x3 box. -/
def sameUnit (p q : Fin 9 × Fin 9) : Prop :=
  p.1 = q.1 ∨ p.2 = q.2 ∨ (p.1.val / 3 = q.1.val / 3 ∧ p.2.val / 3 = q.2.val / 3)

/-- `g'` introduces no new conflict over `g`: whenever two distinct cells
of one unit hold the same value in `g'`, both cells were already clues
(non-zero) in `g`. -/
def relWeak (g g' : Grid) : Prop :=
  ∀ p q : Fin 9 × Fin 9, p ≠ q → sameUnit p q →
    g' p.1 p.2 = g' q.1 q.2 → g p.1 p.2 ≠ 0 ∧ g q.1 q.2 ≠ 0

/-- `F` completes `g` without introducing any new conflict: it preserves
the clues, fills every cell with a digit 1..9, and any duplicated value
within a unit already occurred among the clues of `g`. -/
def weakCompletion (g F : Grid) : Prop :=
  (∀ i j, g i j ≠ 0 → F i j = g i j) ∧
  (∀ i j, 1 ≤ F i j ∧ F i j ≤ 9) ∧ relWeak g F

/-- `F` is a valid completion of `g`: it preserves the clues, fills every
cell with a digit 1..9, and every row, column and box contains each digit
exactly once. -/
def strictCompletion (g F : Grid) : Prop :=
  (∀ i j, g i j ≠ 0 → F i j = g i j) ∧
  (∀ i j, 1 ≤ F i j ∧ F i j ≤ 9) ∧ validSolvedB F = true

/-- The full behavioural contract of one `solve_algorithm` call on `g`
returning `(ok, g', st)`: restoration on failure, clue preservation, on
success a full grid with no new conflicts and solved cells in 1..9, a
replayable chained trace, stack-balanced place/backtrack matching, and
digits recorded in 1..9. -/
def SolveSpec (g : Grid) (ok : Bool) (g' : Grid)
    (st : List InteractiveSudokuSolver.State) : Prop :=
  (ok = false → g' = g) ∧
  (∀ i j, g i j ≠ 0 → g' i j = g i j) ∧
  (ok = true → InteractiveSudokuSolver.find_empty g' = none ∧ relWeak g g' ∧
    ∀ i j, g i j = 0 → 1 ≤ g' i j ∧ g' i j ≤ 9) ∧
  chainedStates g st ∧ replayStates g st = g' ∧
  (∀ stk, ∃ fs, popMatchS st stk = some (fs ++ stk) ∧ (ok = false → fs = [])) ∧
  (∀ s ∈ st, 1 ≤ s.num ∧ s.num ≤ 9)

/-! ## Concrete grids used as test inputs -/

/-- Build a grid from a list of rows (missing entries read as 0). -/
def gridOfLists (l : List (List Nat)) : Grid :=
  fun i j => (l.getD i.val []).getD j.val 0

/-- The unique solution of the classic example puzzle shipped in both
source files. -/
def exSolved : Grid := gridOfLists
  [[5, 3, 4, 6, 7, 8, 9, 1, 2],
   [6, 7, 2, 1, 9, 5, 3, 4, 8],
   [1, 9, 8, 3, 4, 2, 5, 6, 7],
   [8, 5, 9, 7, 6, 1, 4, 2, 3],
   [4, 2, 6, 8, 5, 3, 7, 9, 1],
   [7, 1, 3, 9, 2, 4, 8, 5, 6],
   [9, 6, 1, 5, 3, 7, 2, 8, 4],
   [2, 8, 7, 4, 1, 9, 6, 3, 5],
   [3, 4, 5, 2, 8, 6, 1, 7, 9]]

/-- The solved example grid with cells (0,0), (0,1) and (8,0) emptied:
solvable, and the search backtracks once (it first tries 3 at (0,0)). -/
def exB : Grid := setCell (setCell (setCell exSolved 0 0 0) 0 1 0) 8 0 0

/-- A grid whose first empty cell (0,0) admits no digit at all: row 0
already holds 1..8 and column 0 holds 9.  `solve` fails immediately with
an empty trace. -/
def exFail : Grid := gridOfLists
  [[0, 1, 2, 3, 4, 5, 6, 7, 8],
   [9, 0, 0, 0, 0, 0, 0, 0, 0]]

/-- The solved example grid with cell (0,1) overwritten by 5: a full grid
containing two identical clues (5) in row 0. -/
def exDupFull : Grid := setCell exSolved 0 1 5

/-- Projection from a `solve_algorithm` output to a `solve` output: same
flag, same final grid, and each recorded state projected to its step
tuple. -/
def projOut (o : Bool × Grid × List InteractiveSudokuSolver.State) :
    Bool × Grid × List SudokuSolver.Step :=
  (o.1, o.2.1, o.2.2.map InteractiveSudokuSolver.toStep)

/-! ## Basic lemmas about cells and grid updates -/

theorem setCell_self (g : Grid) (r c : Fin 9) (v : Nat) : setCell g r c v r c = v := by
  simp [setCell]

theorem setCell_of_ne (g : Grid) (r c : Fin 9) (v : Nat) {i j : Fin 9}
    (h : ¬(i = r ∧ j = c)) : setCell g r c v i j = g i j := by
  simp [setCell, h]

theorem setCell_setCell (g : Grid) (r c : Fin 9) (a b : Nat) :
    setCell (setCell g r c a) r c b = setCell g r c b := by
  funext i j; by_cases h : i = r ∧ j = c <;> simp [setCell, h]

theorem setCell_restore (g : Grid) (r c : Fin 9) (h : g r c = 0) :
    setCell g r c 0 = g := by
  funext i j
  by_cases hij : i = r ∧ j = c
  · rcases hij with ⟨rfl, rfl⟩; simp [setCell, h]
  · simp [setCell, hij]

theorem mem_cells : ∀ p : Fin 9 × Fin 9, p ∈ cells := by decide

theorem cells_nodup : cells.Nodup := by decide

theorem cells_length : cells.length = 81 := by decide

theorem find_empty_some_zero {g : Grid} {r c : Fin 9}
    (h : SudokuSolver.find_empty g = some (r, c)) : g r c = 0 := by
  simp only [SudokuSolver.find_empty] at h
  simpa using List.find?_some h

theorem find_empty_none_iff (g : Grid) :
    SudokuSolver.find_empty g = none ↔ ∀ p : Fin 9 × Fin 9, g p.1 p.2 ≠ 0 := by
  simp only [SudokuSolver.find_empty, List.find?_eq_none]
  constructor
  · intro h p; simpa using h p (mem_cells p)
  · intro h p _; simpa using h p

theorem is_valid2_eq : InteractiveSudokuSolver.is_valid = SudokuSolver.is_valid := rfl

theorem find_empty2_eq :
    InteractiveSudokuSolver.find_empty = SudokuSolver.find_empty := rfl

/-! ## Counting lemmas -/

theorem countP_eq_succ_of_flip {α : Type} {l : List α} {x : α} {p q : α → Bool}
    (hnd : l.Nodup) (hx : x ∈ l) (hagree : ∀ y ∈ l, y ≠ x → p y = q y)
    (hpx : p x = true) (hqx : q x = false) : l.countP p = l.countP q + 1 := by
  induction l with
  | nil => cases hx
  | cons a t ih =>
    rcases List.mem_cons.mp hx with rfl | hxt
    · have ht : t.countP p = t.countP q := by
        apply List.countP_congr
        intro y hy
        have hyx : y ≠ x := fun h => (List.nodup_cons.mp hnd).1 (h ▸ hy)
        rw [hagree y (List.mem_cons_of_mem _ hy) hyx]
      rw [List.countP_cons_of_pos _ _ hpx, List.countP_cons_of_neg _ _ (by simp [hqx]), ht]
    · have hne : a ≠ x := fun h => (List.nodup_cons.mp hnd).1 (h ▸ hxt)
      have hpa : p a = q a := hagree a (List.mem_cons_self a t) hne
      have ht := ih (List.nodup_cons.mp hnd).2 hxt
        (fun y hy hyx => hagree y (List.mem_cons_of_mem _ hy) hyx)
      cases hpab : p a with
      | true =>
        have hq : q a = true := by rw [← hpa, hpab]
        rw [List.countP_cons_of_pos _ _ hpab, List.countP_cons_of_pos _ _ hq, ht]
      | false =>
        have hq : q a = false := by rw [← hpa, hpab]
        rw [List.countP_cons_of_neg _ _ (by simp [hpab]),
          List.countP_cons_of_neg _ _ (by simp [hq]), ht]

theorem countP_eq_one_of_unique {α : Type} {l : List α} {x : α} {p : α → Bool}
    (hnd : l.Nodup) (hx : x ∈ l) (hpx : p x = true)
    (huniq : ∀ y ∈ l, p y = true → y = x) : l.countP p = 1 := by
  induction l with
  | nil => cases hx
  | cons a t ih =>
    rcases List.mem_cons.mp hx with rfl | hxt
    · have ht : t.countP p = 0 := by
        rw [List.countP_eq_zero]
        intro y hy hpy
        exact (List.nodup_cons.mp hnd).1
          ((huniq y (List.mem_cons_of_mem _ hy) hpy) ▸ hy)
      rw [List.countP_cons_of_pos _ _ hpx, ht]
    · have hpa : p a = false := by
        cases hpab : p a with
        | true =>
          have := huniq a (List.mem_cons_self a t) hpab
          exact absurd (this ▸ hxt) (List.nodup_cons.mp hnd).1
        | false => rfl
      have ht := ih (List.nodup_cons.mp hnd).2 hxt
        (fun y hy hpy => huniq y (List.mem_cons_of_mem _ hy) hpy)
      rw [List.countP_cons_of_neg _ _ (by simp [hpa]), ht]

theorem countP_two_le {α : Type} {l : List α} {x y : α} {p : α → Bool}
    (hnd : l.Nodup) (hx : x ∈ l) (hy : y ∈ l) (hxy : x ≠ y)
    (hpx : p x = true) (hpy : p y = true) : 2 ≤ l.countP p := by
  induction l with
  | nil => cases hx
  | cons a t ih =>
    have hpos : ∀ z, z ∈ t → p z = true → 1 ≤ t.countP p := by
      intro z hz hpz
      exact List.countP_pos_iff.mpr ⟨z, hz, hpz⟩
    rcases List.mem_cons.mp hx with rfl | hxt
    · have hyt : y ∈ t := by
        rcases List.mem_cons.mp hy with rfl | h
        · exact absurd rfl hxy
        · exact h
      have h1 := hpos y hyt hpy
      rw [List.countP_cons_of_pos _ _ hpx]
      omega
    · rcases List.mem_cons.mp hy with rfl | hyt
      · have h1 := hpos x hxt hpx
        rw [List.countP_cons_of_pos _ _ hpy]
        omega
      · have h2 := ih (List.nodup_cons.mp hnd).2 hxt hyt
        calc 2 ≤ t.countP p := h2
        _ ≤ (a :: t).countP p := by
          rw [List.countP_cons]
          omega

theorem prod_ne_of_not_and {r c : Fin 9} {y : Fin 9 × Fin 9}
    (h : y ≠ (r, c)) : ¬(y.1 = r ∧ y.2 = c) := by
  intro hand
  exact h (Prod.ext hand.1 hand.2)

theorem emptyCount_set {g : Grid} {r c : Fin 9} {d : Nat}
    (hg : g r c = 0) (hd : d ≠ 0) :
    emptyCount g = emptyCount (setCell g r c d) + 1 := by
  apply countP_eq_succ_of_flip cells_nodup (mem_cells (r, c))
  · intro y _ hy
    rw [setCell_of_ne g r c d (prod_ne_of_not_and hy)]
  · simp [hg]
  · simp [setCell_self, hd]

theorem emptyCount_pos {g : Grid} {r c : Fin 9} (h : g r c = 0) :
    0 < emptyCount g :=
  List.countP_pos_iff.mpr ⟨(r, c), mem_cells _, by simp [h]⟩

theorem emptyCount_le : ∀ g : Grid, emptyCount g ≤ 81 := by
  intro g
  calc emptyCount g ≤ cells.length := List.countP_le_length _
  _ = 81 := cells_length

/-! ## Characterisation of `is_valid` -/

theorem is_valid_iff (g : Grid) (r c : Fin 9) (n : Nat) :
    SudokuSolver.is_valid g r c n = true ↔
      (∀ j, g r j ≠ n) ∧ (∀ i, g i c ≠ n) ∧
      ∀ a b : Fin 3, g (boxIdx r a) (boxIdx c b) ≠ n := by
  simp [SudokuSolver.is_valid, List.any_eq_true, List.mem_finRange]

/-! ## First-match characterisation of `find?` -/

theorem find?_some_split {α : Type} {p : α → Bool} {l : List α} {a : α}
    (h : l.find? p = some a) :
    p a = true ∧ ∃ l1 l2, l = l1 ++ a :: l2 ∧ ∀ x ∈ l1, p x = false := by
  induction l with
  | nil => cases h
  | cons b t ih =>
    cases hpb : p b with
    | true =>
      rw [List.find?_cons_of_pos _ hpb] at h
      obtain rfl : b = a := by injection h
      exact ⟨hpb, [], t, rfl, by intro x hx; cases hx⟩
    | false =>
      rw [List.find?_cons_of_neg _ (by simp [hpb])] at h
      obtain ⟨hpa, l1, l2, rfl, hl1⟩ := ih h
      refine ⟨hpa, b :: l1, l2, rfl, ?_⟩
      intro x hx
      rcases List.mem_cons.mp hx with rfl | hx1
      · exact hpb
      · exact hl1 x hx1

theorem find?_append_first {α : Type} (p : α → Bool) (l1 : List α) (a : α)
    (l2 : List α) (h1 : ∀ x ∈ l1, p x = false) (ha : p a = true) :
    (l1 ++ a :: l2).find? p = some a := by
  induction l1 with
  | nil => simpa using List.find?_cons_of_pos _ ha
  | cons b t ih =>
    rw [List.cons_append,
      List.find?_cons_of_neg _ (by simp [h1 b (List.mem_cons_self b t)])]
    exact ih fun x hx => h1 x (List.mem_cons_of_mem _ hx)

/-! ## Row-major order of the cell scan -/

theorem ord_lt_81 (p : Fin 9 × Fin 9) : ord p < 81 := by
  have h1 := p.1.isLt
  have h2 := p.2.isLt
  simp only [ord]
  omega

theorem cells_getD_ord :
    ∀ t, t < 81 → ord (cells.getD t ((0 : Fin 9), (0 : Fin 9))) = t := by decide

theorem cells_getD_self :
    ∀ p : Fin 9 × Fin 9, cells.getD (ord p) ((0 : Fin 9), (0 : Fin 9)) = p := by
  decide

set_option maxRecDepth 4096 in
theorem mem_take_cells :
    ∀ n, n ≤ 81 → ∀ x : Fin 9 × Fin 9, (x ∈ cells.take n ↔ ord x < n) := by
  decide

theorem rowMajor_lt_iff :
    ∀ i j r c : Fin 9, (i < r ∨ (i = r ∧ j < c)) ↔ ord (i, j) < ord (r, c) := by
  decide

/-! ## Equivalence of the two solvers -/

theorem tryLoop_equiv
    (rec2 : Grid → Option (Bool × Grid × List InteractiveSudokuSolver.State))
    (rec1 : Grid → Option (Bool × Grid × List SudokuSolver.Step))
    (hrec : ∀ g, rec1 g = (rec2 g).map projOut) (r c : Fin 9) :
    ∀ (k d : Nat) (g : Grid),
      SudokuSolver.tryLoop rec1 r c k d g =
        (InteractiveSudokuSolver.tryLoop rec2 r c k d g).map projOut := by
  intro k
  induction k with
  | zero =>
    intro d g
    simp [SudokuSolver.tryLoop, InteractiveSudokuSolver.tryLoop, projOut]
  | succ k ih =>
    intro d g
    simp only [SudokuSolver.tryLoop, InteractiveSudokuSolver.tryLoop, is_valid2_eq]
    by_cases hv : SudokuSolver.is_valid g r c d = true
    · rw [if_pos hv, if_pos hv, hrec (setCell g r c d)]
      cases h2 : rec2 (setCell g r c d) with
      | none => simp
      | some o =>
        obtain ⟨ok, g2, tr⟩ := o
        cases ok with
        | true => simp [projOut, InteractiveSudokuSolver.toStep]
        | false =>
          have ihr := ih (d + 1) (setCell g2 r c 0)
          cases h3 : InteractiveSudokuSolver.tryLoop rec2 r c k (d + 1)
              (setCell g2 r c 0) with
          | none => simp [projOut, ihr, h3]
          | some o2 =>
            obtain ⟨ok2, g4, tr2⟩ := o2
            simp [projOut, InteractiveSudokuSolver.toStep, ihr, h3]
    · rw [if_neg hv, if_neg hv]
      exact ih (d + 1) g

theorem solveF_equiv : ∀ fuel (g : Grid),
    SudokuSolver.solveF fuel g =
      (InteractiveSudokuSolver.solveF fuel g).map projOut := by
  intro fuel
  induction fuel with
  | zero => intro g; simp [SudokuSolver.solveF, InteractiveSudokuSolver.solveF]
  | succ fuel ih =>
    intro g
    simp only [SudokuSolver.solveF, InteractiveSudokuSolver.solveF, find_empty2_eq]
    cases h : SudokuSolver.find_empty g with
    | none => simp [projOut]
    | some rc =>
      obtain ⟨r, c⟩ := rc
      exact tryLoop_equiv _ _ ih r c 9 1 g

theorem solve_eq_proj (g : Grid) :
    SudokuSolver.solve g = projOut (InteractiveSudokuSolver.solve_algorithm g) := by
  unfold SudokuSolver.solve InteractiveSudokuSolver.solve_algorithm
  rw [solveF_equiv]
  cases h : InteractiveSudokuSolver.solveF (emptyCount g + 1) g with
  | none => simp [projOut]
  | some o => simp

/-! ## Full characterisation of `find_empty` -/

theorem getD_append_cons {α : Type} (l1 l2 : List α) (a dflt : α) :
    (l1 ++ a :: l2).getD l1.length dflt = a := by
  induction l1 with
  | nil => rfl
  | cons b t ih => simpa using ih

theorem find_empty_some_iff (g : Grid) (r c : Fin 9) :
    SudokuSolver.find_empty g = some (r, c) ↔
      g r c = 0 ∧ ∀ p : Fin 9 × Fin 9, ord p < ord (r, c) → g p.1 p.2 ≠ 0 := by
  constructor
  · intro h
    simp only [SudokuSolver.find_empty] at h
    obtain ⟨hp, l1, l2, hsplit, hl1⟩ := find?_some_split h
    have hz : g r c = 0 := by simpa using hp
    refine ⟨hz, ?_⟩
    have hlen : l1.length + (1 + l2.length) = 81 := by
      have := congrArg List.length hsplit
      simp only [cells_length, List.length_append, List.length_cons] at this
      omega
    have hlt : l1.length < 81 := by omega
    have hgetD : cells.getD l1.length ((0 : Fin 9), (0 : Fin 9)) = (r, c) := by
      rw [hsplit]
      exact getD_append_cons l1 l2 (r, c) _
    have hord : ord (r, c) = l1.length := by
      have := cells_getD_ord l1.length hlt
      rw [hgetD] at this
      exact this
    intro p hplt
    rw [hord] at hplt
    have hmem : p ∈ cells.take l1.length :=
      (mem_take_cells l1.length (by omega) p).mpr hplt
    have htake : cells.take l1.length = l1 := by
      rw [hsplit, List.take_left]
    rw [htake] at hmem
    simpa using hl1 p hmem
  · rintro ⟨hz, hbefore⟩
    have hlt : ord (r, c) < 81 := ord_lt_81 _
    have hltl : ord (r, c) < cells.length := by rw [cells_length]; exact hlt
    have hdecomp : cells =
        cells.take (ord (r, c)) ++ (r, c) :: cells.drop (ord (r, c) + 1) := by
      have h1 := List.take_append_drop (ord (r, c)) cells
      have h2 : cells.drop (ord (r, c)) =
          (r, c) :: cells.drop (ord (r, c) + 1) := by
        rw [List.drop_eq_getElem_cons hltl]
        have := cells_getD_self (r, c)
        rw [List.getD_eq_getElem _ _ hltl] at this
        rw [this]
      conv_lhs => rw [← h1, h2]
    have hfirst : ∀ x ∈ cells.take (ord (r, c)),
        (fun p : Fin 9 × Fin 9 => g p.1 p.2 == 0) x = false := by
      intro x hx
      have hxlt : ord x < ord (r, c) := (mem_take_cells _ (by omega) x).mp hx
      simpa using hbefore x hxlt
    show cells.find? _ = some (r, c)
    conv_lhs => rw [hdecomp]
    exact find?_append_first _ _ _ _ hfirst (by simpa using hz)

/-! ## Units, boxes and conflicts -/

theorem box_repr {x y : Fin 9} (h : x.val / 3 = y.val / 3) :
    ∃ a : Fin 3, x = boxIdx y a := by
  refine ⟨⟨x.val % 3, by omega⟩, ?_⟩
  apply Fin.ext
  simp only [boxIdx]
  omega

theorem sameUnit_symm {p q : Fin 9 × Fin 9} (h : sameUnit p q) : sameUnit q p := by
  rcases h with h1 | h2 | h3
  · exact Or.inl h1.symm
  · exact Or.inr (Or.inl h2.symm)
  · exact Or.inr (Or.inr ⟨h3.1.symm, h3.2.symm⟩)

theorem not_conflict_of_is_valid {g : Grid} {r c : Fin 9} {d : Nat}
    (hv : SudokuSolver.is_valid g r c d = true) {q : Fin 9 × Fin 9}
    (hq : sameUnit (r, c) q) : g q.1 q.2 ≠ d := by
  obtain ⟨hrow, hcol, hbox⟩ := (is_valid_iff g r c d).mp hv
  rcases hq with h1 | h2 | h3
  · intro hd
    exact hrow q.2 (by rw [show r = q.1 from h1]; exact hd)
  · intro hd
    exact hcol q.1 (by rw [show c = q.2 from h2]; exact hd)
  · obtain ⟨a, ha⟩ := box_repr h3.1.symm
    obtain ⟨b, hb⟩ := box_repr h3.2.symm
    intro hd
    exact hbox a b (by rw [← ha, ← hb]; exact hd)

/-! ## Chaining, replaying and matching of traces -/

theorem replayStates_cons (g : Grid) (s : InteractiveSudokuSolver.State)
    (t : List InteractiveSudokuSolver.State) :
    replayStates g (s :: t) = replayStates (applyS g s) t := rfl

theorem replayStates_append (g : Grid)
    (t1 t2 : List InteractiveSudokuSolver.State) :
    replayStates g (t1 ++ t2) = replayStates (replayStates g t1) t2 := by
  unfold replayStates
  rw [List.foldl_append]

theorem chainedStates_append {g : Grid}
    {t1 t2 : List InteractiveSudokuSolver.State} (h1 : chainedStates g t1)
    (h2 : chainedStates (replayStates g t1) t2) : chainedStates g (t1 ++ t2) := by
  induction t1 generalizing g with
  | nil => exact h2
  | cons s t ih =>
    obtain ⟨ha, hc⟩ := h1
    refine ⟨ha, ih hc ?_⟩
    rw [replayStates_cons, ha] at h2
    exact h2

theorem popMatchS_append :
    ∀ (t1 t2 : List InteractiveSudokuSolver.State)
      (stk : List (Fin 9 × Fin 9 × Nat)),
      popMatchS (t1 ++ t2) stk = (popMatchS t1 stk).bind fun s => popMatchS t2 s := by
  intro t1
  induction t1 with
  | nil => intro t2 stk; simp [popMatchS]
  | cons s rest ih =>
    intro t2 stk
    by_cases hp : s.place = true
    · simp only [List.cons_append, popMatchS, if_pos hp]
      exact ih t2 _
    · simp only [List.cons_append, popMatchS, if_neg hp]
      cases stk with
      | nil => simp
      | cons f stk2 =>
        by_cases hf : f = (s.row, s.col, s.num)
        · simp only [if_pos hf]
          exact ih t2 _
        · simp [if_neg hf]

/-! ## Soundness of a single placement -/

theorem relWeak_place {g g2 : Grid} {r c : Fin 9} {d : Nat}
    (hrc : g r c = 0)
    (hv : SudokuSolver.is_valid g r c d = true)
    (hrel : relWeak (setCell g r c d) g2)
    (hext : ∀ i j, setCell g r c d i j ≠ 0 → g2 i j = setCell g r c d i j)
    (hd0 : d ≠ 0) : relWeak g g2 := by
  intro p q hpq hunit heq
  obtain ⟨hp1, hq1⟩ := hrel p q hpq hunit heq
  by_cases hpc : p = (r, c)
  · exfalso
    have hqc : q ≠ (r, c) := fun h => hpq (hpc.trans h.symm)
    have hsetp : setCell g r c d p.1 p.2 = d := by
      rw [hpc]; exact setCell_self g r c d
    have hgp : g2 p.1 p.2 = d := by
      rw [hext p.1 p.2 (by rw [hsetp]; exact hd0), hsetp]
    have hsq : setCell g r c d q.1 q.2 = g q.1 q.2 :=
      setCell_of_ne _ _ _ _ (prod_ne_of_not_and hqc)
    have hgq : g q.1 q.2 = d := by
      have h2 := hext q.1 q.2 hq1
      rw [hsq] at h2
      rw [← h2, ← heq, hgp]
    have hu : sameUnit (r, c) q := by rw [← hpc]; exact hunit
    exact not_conflict_of_is_valid hv hu hgq
  · by_cases hqc : q = (r, c)
    · exfalso
      have hsetq : setCell g r c d q.1 q.2 = d := by
        rw [hqc]; exact setCell_self g r c d
      have hgq : g2 q.1 q.2 = d := by
        rw [hext q.1 q.2 (by rw [hsetq]; exact hd0), hsetq]
      have hsp : setCell g r c d p.1 p.2 = g p.1 p.2 :=
        setCell_of_ne _ _ _ _ (prod_ne_of_not_and hpc)
      have hgp : g p.1 p.2 = d := by
        have h2 := hext p.1 p.2 hp1
        rw [hsp] at h2
        rw [← h2, heq, hgq]
      have hu : sameUnit (r, c) p := by rw [← hqc]; exact sameUnit_symm hunit
      exact not_conflict_of_is_valid hv hu hgp
    · have hsp := setCell_of_ne g r c d (prod_ne_of_not_and hpc)
      have hsq := setCell_of_ne g r c d (prod_ne_of_not_and hqc)
      exact ⟨by rw [← hsp]; exact hp1, by rw [← hsq]; exact hq1⟩

/-! ## The main behavioural induction on `solve_algorithm` -/

theorem tryLoop2_spec (fuel : Nat)
    (IH : ∀ g1 : Grid, emptyCount g1 < fuel →
      ∃ ok g' st, InteractiveSudokuSolver.solveF fuel g1 = some (ok, g', st) ∧
        SolveSpec g1 ok g' st) :
    ∀ (k d : Nat) (g : Grid) (r c : Fin 9), emptyCount g ≤ fuel → g r c = 0 →
      1 ≤ d → d + k = 10 →
      ∃ ok g' st,
        InteractiveSudokuSolver.tryLoop (InteractiveSudokuSolver.solveF fuel)
          r c k d g = some (ok, g', st) ∧ SolveSpec g ok g' st := by
  intro k
  induction k with
  | zero =>
    intro d g r c hec hrc hd1 hdk
    refine ⟨false, g, [], rfl,
      fun _ => rfl, fun i j _ => rfl, by simp, trivial, rfl,
      fun stk => ⟨[], rfl, fun _ => rfl⟩, by simp⟩
  | succ k ih =>
    intro d g r c hec hrc hd1 hdk
    have hd9 : d ≤ 9 := by omega
    have hd0 : d ≠ 0 := by omega
    simp only [InteractiveSudokuSolver.tryLoop]
    by_cases hv : InteractiveSudokuSolver.is_valid g r c d = true
    · rw [if_pos hv]
      have hv' : SudokuSolver.is_valid g r c d = true := by
        rw [← is_valid2_eq]; exact hv
      have hecc : emptyCount (setCell g r c d) < fuel := by
        have := emptyCount_set hrc hd0
        omega
      obtain ⟨ok2, g2, st2, heq2, hspec2⟩ := IH (setCell g r c d) hecc
      obtain ⟨hres2, hext2, hsucc2, hch2, hrep2, hpop2, hdig2⟩ := hspec2
      simp only [heq2]
      cases ok2 with
      | true =>
        rw [if_pos rfl]
        obtain ⟨hfe2, hrel2, hrange2⟩ := hsucc2 rfl
        refine ⟨true, g2, _, rfl, ?_, ?_, ?_, ?_, ?_, ?_, ?_⟩
        · intro h; cases h
        · intro i j hij
          have hne : ¬(i = r ∧ j = c) := fun hand => by
            rw [hand.1, hand.2] at hij
            exact hij hrc
          have hsv : setCell g r c d i j = g i j := setCell_of_ne _ _ _ _ hne
          rw [← hsv]
          exact hext2 i j (by rw [hsv]; exact hij)
        · intro _
          refine ⟨hfe2, relWeak_place hrc hv' hrel2 hext2 hd0, ?_⟩
          intro i j hz
          by_cases hij : i = r ∧ j = c
          · rcases hij with ⟨rfl, rfl⟩
            have : g2 i j = d := by
              rw [hext2 i j (by rw [setCell_self]; exact hd0), setCell_self]
            omega
          · have hsv : setCell g r c d i j = g i j := setCell_of_ne _ _ _ _ hij
            exact hrange2 i j (by rw [hsv]; exact hz)
        · exact ⟨rfl, hch2⟩
        · exact hrep2
        · intro stk
          obtain ⟨fs2, hfs2, _⟩ := hpop2 ((r, c, d) :: stk)
          refine ⟨fs2 ++ [(r, c, d)], ?_, by simp⟩
          show popMatchS st2 ((r, c, d) :: stk) = _
          rw [hfs2]
          simp
        · intro s hs
          rcases List.mem_cons.mp hs with rfl | h2
          · exact ⟨hd1, hd9⟩
          · exact hdig2 s h2
      | false =>
        rw [if_neg (by simp)]
        have hg2 : g2 = setCell g r c d := hres2 rfl
        have hg3 : setCell g2 r c 0 = g := by
          rw [hg2, setCell_setCell, setCell_restore g r c hrc]
        obtain ⟨ok3, g5, st3, heq3, hspec3⟩ :=
          ih (d + 1) (setCell g2 r c 0) r c
            (by rw [hg3]; exact hec) (by rw [hg3]; exact hrc)
            (by omega) (by omega)
        rw [hg3] at hspec3
        obtain ⟨hres3, hext3, hsucc3, hch3, hrep3, hpop3, hdig3⟩ := hspec3
        rw [heq3]
        refine ⟨ok3, g5, _, rfl, hres3, hext3, hsucc3, ?_, ?_, ?_, ?_⟩
        · refine ⟨rfl, chainedStates_append hch2 ?_⟩
          rw [hrep2]
          refine ⟨rfl, ?_⟩
          show chainedStates (setCell g2 r c 0) st3
          rw [hg3]
          exact hch3
        · show replayStates g (_ :: (st2 ++ _ :: st3)) = g5
          rw [replayStates_cons, replayStates_append]
          show replayStates (replayStates (setCell g r c d) st2) _ = g5
          rw [hrep2, replayStates_cons]
          show replayStates (setCell g2 r c 0) st3 = g5
          rw [hg3]
          exact hrep3
        · intro stk
          obtain ⟨fs2, hfs2, hemp2⟩ := hpop2 ((r, c, d) :: stk)
          rw [hemp2 rfl] at hfs2
          obtain ⟨fs3, hfs3, hemp3⟩ := hpop3 stk
          refine ⟨fs3, ?_, hemp3⟩
          show popMatchS (st2 ++ _ :: st3) ((r, c, d) :: stk) = _
          rw [popMatchS_append, hfs2]
          show popMatchS (_ :: st3) ((r, c, d) :: stk) = _
          simp [popMatchS, hfs3]
        · intro s hs
          rcases List.mem_cons.mp hs with rfl | h2
          · exact ⟨hd1, hd9⟩
          · rcases List.mem_append.mp h2 with h3 | h4
            · exact hdig2 s h3
            · rcases List.mem_cons.mp h4 with rfl | h5
              · exact ⟨hd1, hd9⟩
              · exact hdig3 s h5
    · rw [if_neg hv]
      exact ih (d + 1) g r c hec hrc (by omega) (by omega)

theorem solveF2_spec : ∀ fuel (g : Grid), emptyCount g < fuel →
    ∃ ok g' st, InteractiveSudokuSolver.solveF fuel g = some (ok, g', st) ∧
      SolveSpec g ok g' st := by
  intro fuel
  induction fuel with
  | zero => intro g h; omega
  | succ fuel ih =>
    intro g h
    simp only [InteractiveSudokuSolver.solveF]
    cases hfe : InteractiveSudokuSolver.find_empty g with
    | none =>
      have hfull : ∀ p : Fin 9 × Fin 9, g p.1 p.2 ≠ 0 :=
        (find_empty_none_iff g).mp (by rw [← find_empty2_eq]; exact hfe)
      refine ⟨true, g, [], rfl, by simp, fun i j _ => rfl, ?_, trivial, rfl,
        fun stk => ⟨[], rfl, fun _ => rfl⟩, by simp⟩
      intro _
      refine ⟨hfe, ?_, ?_⟩
      · intro p q _ _ _
        exact ⟨hfull p, hfull q⟩
      · intro i j hz
        exact absurd hz (hfull (i, j))
    | some rc =>
      obtain ⟨r, c⟩ := rc
      have hrc : g r c = 0 :=
        find_empty_some_zero (by rw [← find_empty2_eq]; exact hfe)
      exact tryLoop2_spec fuel ih 9 1 g r c (by omega) hrc (by omega) (by omega)

/-! ## Completeness: a weakly completable grid is solved -/

theorem boxIdx_div (x : Fin 9) (a : Fin 3) :
    (boxIdx x a).val / 3 = x.val / 3 := by
  have ha := a.isLt
  simp only [boxIdx]
  omega

theorem is_valid_of_weakCompletion {g F : Grid} {r c : Fin 9}
    (hw : weakCompletion g F) (hrc : g r c = 0) :
    SudokuSolver.is_valid g r c (F r c) = true := by
  obtain ⟨hextF, hrange, hrel⟩ := hw
  rw [is_valid_iff]
  have hF1 : 1 ≤ F r c := (hrange r c).1
  refine ⟨?_, ?_, ?_⟩
  · intro j hj
    by_cases hz : g r j = 0
    · rw [hz] at hj; omega
    · have hjc : j ≠ c := fun h => hz (h ▸ hrc)
      have heq : F r j = F r c := by rw [hextF r j hz, hj]
      have hne : ((r, j) : Fin 9 × Fin 9) ≠ (r, c) := fun h => by
        injection h with h1 h2
        exact hjc h2
      exact absurd hrc (hrel (r, j) (r, c) hne (Or.inl rfl) heq).2
  · intro i hi
    by_cases hz : g i c = 0
    · rw [hz] at hi; omega
    · have hic : i ≠ r := fun h => hz (h ▸ hrc)
      have heq : F i c = F r c := by rw [hextF i c hz, hi]
      have hne : ((i, c) : Fin 9 × Fin 9) ≠ (r, c) := fun h => by
        injection h with h1 h2
        exact hic h1
      exact absurd hrc (hrel (i, c) (r, c) hne (Or.inr (Or.inl rfl)) heq).2
  · intro a b hab
    by_cases hz : g (boxIdx r a) (boxIdx c b) = 0
    · rw [hz] at hab; omega
    · have hne : ((boxIdx r a, boxIdx c b) : Fin 9 × Fin 9) ≠ (r, c) := fun h => by
        injection h with h1 h2
        rw [h1, h2] at hz
        exact hz hrc
      have heq : F (boxIdx r a) (boxIdx c b) = F r c := by
        rw [hextF _ _ hz, hab]
      have hu : sameUnit (boxIdx r a, boxIdx c b) (r, c) :=
        Or.inr (Or.inr ⟨boxIdx_div r a, boxIdx_div c b⟩)
      exact absurd hrc (hrel _ (r, c) hne hu heq).2

theorem weakCompletion_set {g F : Grid} {r c : Fin 9}
    (hw : weakCompletion g F) (hrc : g r c = 0) :
    weakCompletion (setCell g r c (F r c)) F := by
  obtain ⟨hextF, hrange, hrel⟩ := hw
  refine ⟨?_, hrange, ?_⟩
  · intro i j hij
    by_cases hijc : i = r ∧ j = c
    · rcases hijc with ⟨rfl, rfl⟩
      rw [setCell_self]
    · rw [setCell_of_ne _ _ _ _ hijc] at hij ⊢
      exact hextF i j hij
  · intro p q hpq hunit heq
    obtain ⟨h1, h2⟩ := hrel p q hpq hunit heq
    constructor
    · by_cases hpc : p.1 = r ∧ p.2 = c
      · rcases hpc with ⟨hp1, hp2⟩
        rw [hp1, hp2, setCell_self]
        have := (hrange r c).1
        omega
      · rw [setCell_of_ne _ _ _ _ hpc]
        exact h1
    · by_cases hqc : q.1 = r ∧ q.2 = c
      · rcases hqc with ⟨hq1, hq2⟩
        rw [hq1, hq2, setCell_self]
        have := (hrange r c).1
        omega
      · rw [setCell_of_ne _ _ _ _ hqc]
        exact h2

theorem tryLoop2_complete (fuel : Nat)
    (IH : ∀ g1 F1 : Grid, emptyCount g1 < fuel → weakCompletion g1 F1 →
      ∃ g' st, InteractiveSudokuSolver.solveF fuel g1 = some (true, g', st)) :
    ∀ (k d : Nat) (g F : Grid) (r c : Fin 9), emptyCount g ≤ fuel → g r c = 0 →
      weakCompletion g F → 1 ≤ d → d ≤ F r c → d + k = 10 →
      ∃ g' st,
        InteractiveSudokuSolver.tryLoop (InteractiveSudokuSolver.solveF fuel)
          r c k d g = some (true, g', st) := by
  intro k
  induction k with
  | zero =>
    intro d g F r c _ hrc hw hd1 hdF hdk
    exfalso
    have := (hw.2.1 r c).2
    omega
  | succ k ih =>
    intro d g F r c hec hrc hw hd1 hdF hdk
    have hd0 : d ≠ 0 := by omega
    simp only [InteractiveSudokuSolver.tryLoop]
    by_cases hdeq : d = F r c
    · have hv : InteractiveSudokuSolver.is_valid g r c d = true := by
        rw [is_valid2_eq, hdeq]
        exact is_valid_of_weakCompletion hw hrc
      rw [if_pos hv]
      have hwset : weakCompletion (setCell g r c d) F := by
        rw [hdeq]
        exact weakCompletion_set hw hrc
      have hecc : emptyCount (setCell g r c d) < fuel := by
        have := emptyCount_set hrc hd0
        omega
      obtain ⟨g', st, heq⟩ := IH (setCell g r c d) F hecc hwset
      simp only [heq, if_true]
      exact ⟨_, _, rfl⟩
    · have hdlt : d < F r c := lt_of_le_of_ne hdF hdeq
      by_cases hv : InteractiveSudokuSolver.is_valid g r c d = true
      · rw [if_pos hv]
        have hecc : emptyCount (setCell g r c d) < fuel := by
          have := emptyCount_set hrc hd0
          omega
        obtain ⟨ok2, g2, st2, heq2, hspec2⟩ := solveF2_spec fuel (setCell g r c d) hecc
        simp only [heq2]
        cases ok2 with
        | true =>
          rw [if_pos rfl]
          exact ⟨_, _, rfl⟩
        | false =>
          rw [if_neg (by simp)]
          have hg2 : g2 = setCell g r c d := hspec2.1 rfl
          have hg3 : setCell g2 r c 0 = g := by
            rw [hg2, setCell_setCell, setCell_restore g r c hrc]
          obtain ⟨g', st, heq3⟩ := ih (d + 1) (setCell g2 r c 0) F r c
            (by rw [hg3]; exact hec) (by rw [hg3]; exact hrc)
            (by rw [hg3]; exact hw) (by omega) (by omega) (by omega)
          rw [heq3]
          exact ⟨_, _, rfl⟩
      · rw [if_neg hv]
        exact ih (d + 1) g F r c hec hrc hw (by omega) (by omega) (by omega)

theorem solveF2_complete : ∀ fuel (g F : Grid), emptyCount g < fuel →
    weakCompletion g F →
    ∃ g' st, InteractiveSudokuSolver.solveF fuel g = some (true, g', st) := by
  intro fuel
  induction fuel with
  | zero => intro g F h _; omega
  | succ fuel ih =>
    intro g F h hw
    simp only [InteractiveSudokuSolver.solveF]
    cases hfe : InteractiveSudokuSolver.find_empty g with
    | none => exact ⟨g, [], rfl⟩
    | some rc =>
      obtain ⟨r, c⟩ := rc
      have hrc : g r c = 0 :=
        find_empty_some_zero (by rw [← find_empty2_eq]; exact hfe)
      have hF1 : 1 ≤ F r c := (hw.2.1 r c).1
      exact tryLoop2_complete fuel (fun g1 F1 h1 hw1 => ih g1 F1 h1 hw1)
        9 1 g F r c (by omega) hrc hw (by omega) hF1 (by omega)

/-! ## Box enumeration facts -/

theorem boxList_nodup : ∀ br bc : Fin 3, (boxList br bc).Nodup := by decide

theorem mem_boxList_cell :
    ∀ br bc a b : Fin 3, (boxCell br a, boxCell bc b) ∈ boxList br bc := by decide

theorem boxList_mem_repr :
    ∀ br bc : Fin 3, ∀ x ∈ boxList br bc,
      ∃ a b : Fin 3, x = (boxCell br a, boxCell bc b) := by decide

theorem mem_boxList_self :
    ∀ p : Fin 9 × Fin 9, p ∈ boxList (boxOf p.1) (boxOf p.2) := by decide

theorem boxCell_div : ∀ b a : Fin 3, (boxCell b a).val / 3 = b.val := by decide

theorem mem_digits_iff (d : Nat) : d ∈ digits ↔ 1 ≤ d ∧ d ≤ 9 := by
  simp [digits]
  omega

/-! ## Extraction and construction of the solved-grid checker -/

theorem validSolvedB_spec {g : Grid} (h : validSolvedB g = true) {d : Nat}
    (hd1 : 1 ≤ d) (hd9 : d ≤ 9) :
    (∀ r : Fin 9, ((List.finRange 9).countP fun c => g r c == d) = 1) ∧
    (∀ c : Fin 9, ((List.finRange 9).countP fun r => g r c == d) = 1) ∧
    (∀ br bc : Fin 3, ((boxList br bc).countP fun p => g p.1 p.2 == d) = 1) := by
  rw [validSolvedB, List.all_eq_true] at h
  have hd := h d ((mem_digits_iff d).mpr ⟨hd1, hd9⟩)
  simp only [Bool.and_eq_true, List.all_eq_true] at hd
  obtain ⟨h1, h2, h3⟩ := hd
  refine ⟨fun r => ?_, fun c => ?_, fun br bc => ?_⟩
  · simpa using h1 r (List.mem_finRange r)
  · simpa using h2 c (List.mem_finRange c)
  · simpa using h3 br (List.mem_finRange br) bc (List.mem_finRange bc)

theorem validSolved_no_conflict {F : Grid} (hF : validSolvedB F = true)
    (hrange : ∀ i j, 1 ≤ F i j ∧ F i j ≤ 9) :
    ∀ p q : Fin 9 × Fin 9, p ≠ q → sameUnit p q → F p.1 p.2 ≠ F q.1 q.2 := by
  intro p q hpq hunit heq
  have hr := hrange p.1 p.2
  obtain ⟨hrow, hcol, hbox⟩ := validSolvedB_spec hF hr.1 hr.2
  rcases hunit with h1 | h2 | h3
  · have hne : p.2 ≠ q.2 := fun h => hpq (Prod.ext h1 h)
    have h2le := countP_two_le (l := List.finRange 9)
      (p := fun cc => F p.1 cc == F p.1 p.2)
      (List.nodup_finRange 9) (List.mem_finRange p.2) (List.mem_finRange q.2)
      hne (by simp) (by rw [← h1] at heq; simp [← heq])
    have h1c := hrow p.1
    omega
  · have hne : p.1 ≠ q.1 := fun h => hpq (Prod.ext h h2)
    have h2le := countP_two_le (l := List.finRange 9)
      (p := fun rr => F rr p.2 == F p.1 p.2)
      (List.nodup_finRange 9) (List.mem_finRange p.1) (List.mem_finRange q.1)
      hne (by simp) (by rw [← h2] at heq; simp [← heq])
    have h1c := hcol p.2
    omega
  · have hbq : boxOf q.1 = boxOf p.1 := Fin.ext (by simp [boxOf]; omega)
    have hbq2 : boxOf q.2 = boxOf p.2 := Fin.ext (by simp [boxOf]; omega)
    have hqmem : q ∈ boxList (boxOf p.1) (boxOf p.2) := by
      rw [← hbq, ← hbq2]
      exact mem_boxList_self q
    have h2le := countP_two_le (l := boxList (boxOf p.1) (boxOf p.2))
      (p := fun x => F x.1 x.2 == F p.1 p.2)
      (boxList_nodup _ _) (mem_boxList_self p) hqmem
      hpq (by simp) (by simp [← heq])
    have h1c := hbox (boxOf p.1) (boxOf p.2)
    omega

theorem validSolvedB_of_distinct {g : Grid}
    (hrange : ∀ i j, 1 ≤ g i j ∧ g i j ≤ 9)
    (hdist : ∀ p q : Fin 9 × Fin 9, p ≠ q → sameUnit p q → g p.1 p.2 ≠ g q.1 q.2) :
    validSolvedB g = true := by
  rw [validSolvedB, List.all_eq_true]
  intro d hdmem
  have hd := (mem_digits_iff d).mp hdmem
  simp only [Bool.and_eq_true, List.all_eq_true]
  refine ⟨?_, ?_, ?_⟩
  · intro r _
    have hinj : Function.Injective
        (fun cc : Fin 9 => (⟨g r cc - 1, by have := hrange r cc; omega⟩ : Fin 9)) := by
      intro c1 c2 hcc
      by_contra hne
      simp only [Fin.mk.injEq] at hcc
      have h1 := hrange r c1
      have h2 := hrange r c2
      have hgg : g r c1 = g r c2 := by omega
      exact hdist (r, c1) (r, c2)
        (fun hp => hne (by injection hp)) (Or.inl rfl) hgg
    obtain ⟨cd, hcd⟩ := Finite.injective_iff_surjective.mp hinj ⟨d - 1, by omega⟩
    simp only [Fin.mk.injEq] at hcd
    have hrc := hrange r cd
    have hgcd : g r cd = d := by omega
    have hcount := countP_eq_one_of_unique (l := List.finRange 9)
      (p := fun cc => g r cc == d)
      (List.nodup_finRange 9) (List.mem_finRange cd) (by simp [hgcd]) ?_
    · simp [hcount]
    · intro y _ hy
      have hgy : g r y = d := by simpa using hy
      by_contra hne
      exact hdist (r, y) (r, cd)
        (fun hp => hne (by injection hp)) (Or.inl rfl) (by rw [hgy, hgcd])
  · intro c _
    have hinj : Function.Injective
        (fun rr : Fin 9 => (⟨g rr c - 1, by have := hrange rr c; omega⟩ : Fin 9)) := by
      intro r1 r2 hrr
      by_contra hne
      simp only [Fin.mk.injEq] at hrr
      have h1 := hrange r1 c
      have h2 := hrange r2 c
      have hgg : g r1 c = g r2 c := by omega
      exact hdist (r1, c) (r2, c)
        (fun hp => hne (by injection hp)) (Or.inr (Or.inl rfl)) hgg
    obtain ⟨rd, hrd⟩ := Finite.injective_iff_surjective.mp hinj ⟨d - 1, by omega⟩
    simp only [Fin.mk.injEq] at hrd
    have hrc := hrange rd c
    have hgrd : g rd c = d := by omega
    have hcount := countP_eq_one_of_unique (l := List.finRange 9)
      (p := fun rr => g rr c == d)
      (List.nodup_finRange 9) (List.mem_finRange rd) (by simp [hgrd]) ?_
    · simp [hcount]
    · intro y _ hy
      have hgy : g y c = d := by simpa using hy
      by_contra hne
      exact hdist (y, c) (rd, c)
        (fun hp => hne (by injection hp)) (Or.inr (Or.inl rfl)) (by rw [hgy, hgrd])
  · intro br _ bc _
    have hinj : Function.Injective
        (fun ab : Fin 3 × Fin 3 =>
          (⟨g (boxCell br ab.1) (boxCell bc ab.2) - 1,
            by have := hrange (boxCell br ab.1) (boxCell bc ab.2); omega⟩ : Fin 9)) := by
      intro ab1 ab2 hab
      by_contra hne
      simp only [Fin.mk.injEq] at hab
      have h1 := hrange (boxCell br ab1.1) (boxCell bc ab1.2)
      have h2 := hrange (boxCell br ab2.1) (boxCell bc ab2.2)
      have hgg : g (boxCell br ab1.1) (boxCell bc ab1.2) =
          g (boxCell br ab2.1) (boxCell bc ab2.2) := by omega
      have hcell : ((boxCell br ab1.1, boxCell bc ab1.2) : Fin 9 × Fin 9) ≠
          (boxCell br ab2.1, boxCell bc ab2.2) := by
        intro hp
        injection hp with e1 e2
        apply hne
        have ha1 := ab1.1.isLt
        have ha2 := ab2.1.isLt
        have hb1 := ab1.2.isLt
        have hb2 := ab2.2.isLt
        have hv1 := congrArg Fin.val e1
        have hv2 := congrArg Fin.val e2
        simp only [boxCell] at hv1 hv2
        exact Prod.ext (Fin.ext (by omega)) (Fin.ext (by omega))
      have hsame : sameUnit (boxCell br ab1.1, boxCell bc ab1.2)
          (boxCell br ab2.1, boxCell bc ab2.2) :=
        Or.inr (Or.inr (by simp [boxCell_div]))
      exact hdist _ _ hcell hsame hgg
    have hcard : Fintype.card (Fin 3 × Fin 3) = Fintype.card (Fin 9) := by simp
    have hsurj : Function.Surjective _ :=
      ((Fintype.bijective_iff_injective_and_card _).mpr ⟨hinj, hcard⟩).2
    obtain ⟨ab, hab⟩ := hsurj ⟨d - 1, by omega⟩
    simp only [Fin.mk.injEq] at hab
    have hrc := hrange (boxCell br ab.1) (boxCell bc ab.2)
    have hgab : g (boxCell br ab.1) (boxCell bc ab.2) = d := by omega
    have hcount := countP_eq_one_of_unique (l := boxList br bc)
      (p := fun x => g x.1 x.2 == d)
      (boxList_nodup br bc) (mem_boxList_cell br bc ab.1 ab.2)
      (by simp [hgab]) ?_
    · simp [hcount]
    · intro y hymem hy
      obtain ⟨a2, b2, rfl⟩ := boxList_mem_repr br bc y hymem
      have hgy : g (boxCell br a2) (boxCell bc b2) = d := by simpa using hy
      by_contra hne
      have hsame : sameUnit (boxCell br a2, boxCell bc b2)
          (boxCell br ab.1, boxCell bc ab.2) :=
        Or.inr (Or.inr (by simp [boxCell_div]))
      exact hdist _ _ hne hsame (by rw [hgy, hgab])

/-! ## Resolving the solvers at sufficient fuel -/

theorem solve_algorithm_eq (g : Grid) :
    InteractiveSudokuSolver.solveF (emptyCount g + 1) g =
      some (InteractiveSudokuSolver.solve_algorithm g) := by
  obtain ⟨ok, g', st, heq, _⟩ := solveF2_spec (emptyCount g + 1) g (by omega)
  unfold InteractiveSudokuSolver.solve_algorithm
  rw [heq]
  rfl

theorem solve_algorithm_spec (g : Grid) :
    SolveSpec g (InteractiveSudokuSolver.solve_algorithm g).1
      (InteractiveSudokuSolver.solve_algorithm g).2.1
      (InteractiveSudokuSolver.solve_algorithm g).2.2 := by
  obtain ⟨ok, g', st, heq, hspec⟩ := solveF2_spec (emptyCount g + 1) g (by omega)
  have h2 : InteractiveSudokuSolver.solve_algorithm g = (ok, g', st) := by
    unfold InteractiveSudokuSolver.solve_algorithm
    rw [heq]
    rfl
  rw [h2]
  exact hspec

theorem solve_components (g : Grid) :
    (SudokuSolver.solve g).1 = (InteractiveSudokuSolver.solve_algorithm g).1 ∧
    (SudokuSolver.solve g).2.1 = (InteractiveSudokuSolver.solve_algorithm g).2.1 ∧
    (SudokuSolver.solve g).2.2 =
      (InteractiveSudokuSolver.solve_algorithm g).2.2.map
        InteractiveSudokuSolver.toStep := by
  rw [solve_eq_proj g]
  exact ⟨rfl, rfl, rfl⟩

theorem solve_algorithm_complete {g F : Grid} (hw : weakCompletion g F) :
    (InteractiveSudokuSolver.solve_algorithm g).1 = true := by
  obtain ⟨g', st, heq⟩ := solveF2_complete (emptyCount g + 1) g F (by omega) hw
  unfold InteractiveSudokuSolver.solve_algorithm
  rw [heq]
  rfl

theorem weak_of_strict {g F : Grid} (hs : strictCompletion g F) :
    weakCompletion g F := by
  obtain ⟨hext, hrange, hvalid⟩ := hs
  refine ⟨hext, hrange, ?_⟩
  intro p q hpq hunit heq
  exact absurd heq (validSolved_no_conflict hvalid hrange p q hpq hunit)

/-! ## The final grid of a successful solve is strictly valid -/

theorem validSolvedB_final {g g2 F : Grid}
    (hstrict : strictCompletion g F)
    (hle : ∀ i j, g i j ≤ 9)
    (hext : ∀ i j, g i j ≠ 0 → g2 i j = g i j)
    (hrel : relWeak g g2)
    (hrange0 : ∀ i j, g i j = 0 → 1 ≤ g2 i j ∧ g2 i j ≤ 9) :
    validSolvedB g2 = true := by
  obtain ⟨hFext, hFrange, hFvalid⟩ := hstrict
  have hrange : ∀ i j, 1 ≤ g2 i j ∧ g2 i j ≤ 9 := by
    intro i j
    by_cases hz : g i j = 0
    · exact hrange0 i j hz
    · rw [hext i j hz]
      exact ⟨by omega, hle i j⟩
  apply validSolvedB_of_distinct hrange
  intro p q hpq hunit heq2
  obtain ⟨hp0, hq0⟩ := hrel p q hpq hunit heq2
  have hFeq : F p.1 p.2 = F q.1 q.2 := by
    rw [hFext _ _ hp0, hFext _ _ hq0,
      ← hext p.1 p.2 hp0, ← hext q.1 q.2 hq0, heq2]
  exact validSolved_no_conflict hFvalid hFrange p q hpq hunit hFeq

theorem validSolvedB_false_of_dup {g : Grid} {r c1 c2 : Fin 9} (hne : c1 ≠ c2)
    (h0 : g r c1 ≠ 0) (h9 : g r c1 ≤ 9) (heq : g r c1 = g r c2) :
    validSolvedB g = false := by
  rw [Bool.eq_false_iff]
  intro ht
  obtain ⟨hrow, _, _⟩ := validSolvedB_spec ht (d := g r c1) (by omega) h9
  have h1 := hrow r
  have h2 := countP_two_le (l := List.finRange 9)
    (p := fun cc => g r cc == g r c1)
    (List.nodup_finRange 9) (List.mem_finRange c1) (List.mem_finRange c2)
    hne (by simp) (by simp [← heq])
  omega

/-! ## Transferring trace properties along the projection -/

theorem replaySteps_map (g : Grid) (st : List InteractiveSudokuSolver.State) :
    replaySteps g (st.map InteractiveSudokuSolver.toStep) = replayStates g st := by
  unfold replaySteps replayStates
  rw [List.foldl_map]
  congr 1
  funext g' s
  cases hp : s.place <;>
    simp [applyT, applyS, InteractiveSudokuSolver.toStep, hp]

theorem popMatchT_of_popMatchS :
    ∀ (st : List InteractiveSudokuSolver.State)
      (stk res : List (Fin 9 × Fin 9 × Nat)),
      popMatchS st stk = some res →
      popMatchT (st.map InteractiveSudokuSolver.toStep) stk = some res := by
  intro st
  induction st with
  | nil =>
    intro stk res h
    simpa [popMatchS, popMatchT] using h
  | cons s t ih =>
    intro stk res h
    cases hp : s.place with
    | true =>
      simp only [popMatchS, if_pos hp] at h
      simp only [List.map_cons, popMatchT, InteractiveSudokuSolver.toStep, hp,
        if_pos, if_true]
      exact ih _ _ h
    | false =>
      simp only [popMatchS] at h
      rw [if_neg (by simp [hp])] at h
      cases stk with
      | nil => cases h
      | cons f stk2 =>
        have h2 : (if f = (s.row, s.col, s.num) then popMatchS t stk2
            else none) = some res := h
        by_cases hf : f = (s.row, s.col, s.num)
        · rw [if_pos hf] at h2
          simp only [List.map_cons, popMatchT, InteractiveSudokuSolver.toStep, hp]
          rw [if_neg (by simp), if_pos (by rw [hf]; exact ⟨rfl, rfl, by simp⟩)]
          exact ih _ _ h2
        · rw [if_neg hf] at h2
          cases h2

theorem digitOkT_map {st : List InteractiveSudokuSolver.State}
    (hdig : ∀ s ∈ st, 1 ≤ s.num ∧ s.num ≤ 9) :
    (st.map InteractiveSudokuSolver.toStep).all digitOkT = true := by
  rw [List.all_eq_true]
  intro e he
  obtain ⟨s, hs, rfl⟩ := List.mem_map.mp he
  obtain ⟨h1, h9⟩ := hdig s hs
  cases hp : s.place <;>
    simp [digitOkT, InteractiveSudokuSolver.toStep, hp, h1, h9]

theorem digitOkS_all {st : List InteractiveSudokuSolver.State}
    (hdig : ∀ s ∈ st, 1 ≤ s.num ∧ s.num ≤ 9) : st.all digitOkS = true := by
  rw [List.all_eq_true]
  intro s hs
  obtain ⟨h1, h9⟩ := hdig s hs
  simp [digitOkS, h1, h9]

/-! ## Prefix replay reaches each recorded snapshot -/

theorem chained_take (g : Grid) :
    ∀ st : List InteractiveSudokuSolver.State, chainedStates g st →
      ∀ k (h : k < st.length),
        replayStates g (st.take (k + 1)) = (st.get ⟨k, h⟩).grid := by
  intro st
  induction st generalizing g with
  | nil =>
    intro _ k h
    exact absurd h (Nat.not_lt_zero k)
  | cons s t ih =>
    intro hch k h
    obtain ⟨ha, hc⟩ := hch
    cases k with
    | zero => simpa [replayStates] using ha
    | succ k2 =>
      have hres := ih (g := s.grid) hc k2 (by simpa using h)
      simp only [List.take, List.get, replayStates_cons, ha]
      exact hres

/-! ## The claims -/

/-- C1: for every 9x9 input grid of digits 0-9 that has at least one valid
completion, `solve` returns true and afterwards the grid is fully assigned
with every row, column and 3x3 box containing each digit 1-9 exactly once
(`validSolvedB`), and every cell that was non-zero in the input holds its
original value. -/
theorem claim1_solve_correct (g : Grid) (hle : ∀ i j, g i j ≤ 9)
    (hsolv : ∃ F, strictCompletion g F) :
    (SudokuSolver.solve g).1 = true ∧
    validSolvedB (SudokuSolver.solve g).2.1 = true ∧
    ∀ i j, g i j ≠ 0 → (SudokuSolver.solve g).2.1 i j = g i j := by
  obtain ⟨F, hs⟩ := hsolv
  obtain ⟨hc1, hc2, hc3⟩ := solve_components g
  have hok : (InteractiveSudokuSolver.solve_algorithm g).1 = true :=
    solve_algorithm_complete (weak_of_strict hs)
  obtain ⟨_, hext, hsucc, _, _, _, _⟩ := solve_algorithm_spec g
  obtain ⟨hfe, hrel, hrange0⟩ := hsucc hok
  refine ⟨by rw [hc1]; exact hok, ?_, ?_⟩
  · rw [hc2]
    exact validSolvedB_final hs hle hext hrel hrange0
  · intro i j hij
    rw [hc2]
    exact hext i j hij

/-- Witness for C1 at the concrete solvable grid `exB`, with the classic
solution `exSolved` as the valid completion. -/
theorem claim1_solve_correct_witness :
    ((∀ i j : Fin 9, exB i j ≤ 9) ∧ strictCompletion exB exSolved) ∧
    ((SudokuSolver.solve exB).1 = true ∧
     validSolvedB (SudokuSolver.solve exB).2.1 = true ∧
     ∀ i j, exB i j ≠ 0 → (SudokuSolver.solve exB).2.1 i j = exB i j) :=
  ⟨⟨by decide, by unfold strictCompletion; exact ⟨by decide, by decide, by decide⟩⟩,
    claim1_solve_correct exB (by decide)
      ⟨exSolved, by unfold strictCompletion; exact ⟨by decide, by decide, by decide⟩⟩⟩

/-- C2 as stated is false on `SudokuSolver.solve`: on the grid `exB` the
trace contains a Backtrack step, and not every step's digit lies in 1..9
(the Backtrack step records digit 0, not the digit of the Place it
undoes). -/
theorem claim2_counterexample :
    ((SudokuSolver.solve exB).2.2.any fun e => !e.place) = true ∧
    ((SudokuSolver.solve exB).2.2.all fun e =>
      decide (1 ≤ e.num) && decide (e.num ≤ 9)) = false := by
  decide

/-- C2 amended: in `SudokuSolver.solve` every Backtrack step is matched,
stack-wise, with the Place step it undoes at the same (row, col), but it
records digit 0 rather than the placed digit; Place digits lie in 1..9 and
Backtrack digits are 0 (`digitOkT`).  In
`InteractiveSudokuSolver.solve_algorithm` the matching holds with the full
(row, col, digit) triple and every recorded digit lies in 1..9. -/
theorem claim2_amended_matching (g : Grid) :
    (popMatchT (SudokuSolver.solve g).2.2 []).isSome = true ∧
    (SudokuSolver.solve g).2.2.all digitOkT = true ∧
    (popMatchS (InteractiveSudokuSolver.solve_algorithm g).2.2 []).isSome = true ∧
    (InteractiveSudokuSolver.solve_algorithm g).2.2.all digitOkS = true := by
  obtain ⟨_, _, hc3⟩ := solve_components g
  obtain ⟨_, _, _, _, _, hpop, hdig⟩ := solve_algorithm_spec g
  obtain ⟨fs, hfs, _⟩ := hpop []
  refine ⟨?_, ?_, ?_, ?_⟩
  · rw [hc3, popMatchT_of_popMatchS _ _ _ hfs]
    rfl
  · rw [hc3]
    exact digitOkT_map hdig
  · rw [hfs]
    rfl
  · exact digitOkS_all hdig

/-- C3 as stated is false: `exDupFull` is a full grid with two identical
clues (5 at cells (0,0) and (0,1) of row 0), yet `solve` returns true (it
finds no empty cell and immediately succeeds), not false. -/
theorem claim3_counterexample :
    exDupFull 0 0 = 5 ∧ exDupFull 0 1 = 5 ∧
    (SudokuSolver.solve exDupFull).1 = true ∧
    (SudokuSolver.solve exDupFull).2.2 = [] := by
  decide

/-- C3 amended: a grid with two identical non-zero clues (digit 0-9) in
one row is never solved to a strictly valid grid: both duplicated clues
survive in the grid `solve` leaves behind, so that grid fails the
row/column/box uniqueness check; `solve` may return true (completing the
empty cells without new conflicts) or false. -/
theorem claim3_amended (g : Grid) (r c1 c2 : Fin 9) (hne : c1 ≠ c2)
    (h0 : g r c1 ≠ 0) (h9 : g r c1 ≤ 9) (hdup : g r c1 = g r c2) :
    (SudokuSolver.solve g).2.1 r c1 = g r c1 ∧
    (SudokuSolver.solve g).2.1 r c2 = g r c2 ∧
    validSolvedB (SudokuSolver.solve g).2.1 = false := by
  obtain ⟨_, hc2, _⟩ := solve_components g
  obtain ⟨_, hext, _, _, _, _, _⟩ := solve_algorithm_spec g
  have h02 : g r c2 ≠ 0 := by rw [← hdup]; exact h0
  have hpres : ∀ i j, g i j ≠ 0 → (SudokuSolver.solve g).2.1 i j = g i j := by
    intro i j hij
    rw [hc2]
    exact hext i j hij
  have e1 := hpres r c1 h0
  have e2 := hpres r c2 h02
  refine ⟨e1, e2, ?_⟩
  exact validSolvedB_false_of_dup hne (by rw [e1]; exact h0)
    (by rw [e1]; exact h9) (by rw [e1, e2, hdup])

/-- Witness for the amended C3 at the duplicated-clue grid `exDupFull`. -/
theorem claim3_amended_witness :
    (exDupFull 0 0 ≠ 0 ∧ exDupFull 0 0 ≤ 9 ∧ exDupFull 0 0 = exDupFull 0 1) ∧
    ((SudokuSolver.solve exDupFull).2.1 0 0 = exDupFull 0 0 ∧
     (SudokuSolver.solve exDupFull).2.1 0 1 = exDupFull 0 1 ∧
     validSolvedB (SudokuSolver.solve exDupFull).2.1 = false) :=
  ⟨⟨by decide, by decide, by decide⟩,
    claim3_amended exDupFull 0 0 1 (by decide) (by decide) (by decide) (by decide)⟩

/-- C4: replaying any prefix of the trace against the input grid (a Place
writes its digit, a Backtrack clears its cell to 0) reproduces exactly the
grid state the solver held at that point, as recorded in the grid
snapshots of `solve_algorithm`; the projected step trace of `solve`
replays to the same state. -/
theorem claim4_replay (g : Grid) (k : Nat)
    (hk : k < (InteractiveSudokuSolver.solve_algorithm g).2.2.length) :
    replayStates g ((InteractiveSudokuSolver.solve_algorithm g).2.2.take (k + 1)) =
      ((InteractiveSudokuSolver.solve_algorithm g).2.2.get ⟨k, hk⟩).grid ∧
    replaySteps g ((SudokuSolver.solve g).2.2.take (k + 1)) =
      ((InteractiveSudokuSolver.solve_algorithm g).2.2.get ⟨k, hk⟩).grid := by
  obtain ⟨_, _, hc3⟩ := solve_components g
  obtain ⟨_, _, _, hch, _, _, _⟩ := solve_algorithm_spec g
  have h1 := chained_take g _ hch k hk
  refine ⟨h1, ?_⟩
  rw [hc3, ← List.map_take, replaySteps_map]
  exact h1

/-- Witness for C4 at `exB`, prefix length 2 (just after the solver's
first backtrack). -/
theorem claim4_replay_witness :
    (1 < (InteractiveSudokuSolver.solve_algorithm exB).2.2.length) ∧
    (replayStates exB ((InteractiveSudokuSolver.solve_algorithm exB).2.2.take 2) =
      ((InteractiveSudokuSolver.solve_algorithm exB).2.2.get ⟨1, by decide⟩).grid ∧
     replaySteps exB ((SudokuSolver.solve exB).2.2.take 2) =
      ((InteractiveSudokuSolver.solve_algorithm exB).2.2.get ⟨1, by decide⟩).grid) :=
  ⟨by decide, claim4_replay exB 1 (by decide)⟩

/-- C5: whenever `solve` returns false the grid it leaves behind is
exactly the input grid, cell for cell. -/
theorem claim5_failure_restores (g : Grid)
    (hf : (SudokuSolver.solve g).1 = false) :
    (SudokuSolver.solve g).2.1 = g := by
  obtain ⟨hc1, hc2, _⟩ := solve_components g
  obtain ⟨hres, _, _, _, _, _, _⟩ := solve_algorithm_spec g
  rw [hc2]
  exact hres (by rw [← hc1]; exact hf)

/-- Witness for C5 at the unsolvable grid `exFail`. -/
theorem claim5_failure_restores_witness :
    (SudokuSolver.solve exFail).1 = false ∧
    (SudokuSolver.solve exFail).2.1 = exFail :=
  ⟨by decide, claim5_failure_restores exFail (by decide)⟩

/-- C6: for an empty cell (row, col) and a digit 1..9, `is_valid` returns
true iff the digit appears in no cell of the row, no cell of the column,
and no cell of the 3x3 box with origin (3*(row/3), 3*(col/3)). -/
theorem claim6_is_valid_iff (g : Grid) (r c : Fin 9) (d : Nat)
    (hrc : g r c = 0) (hd1 : 1 ≤ d) (hd9 : d ≤ 9) :
    SudokuSolver.is_valid g r c d = true ↔
      (∀ j, g r j ≠ d) ∧ (∀ i, g i c ≠ d) ∧
      ∀ a b : Fin 3, g (boxIdx r a) (boxIdx c b) ≠ d :=
  is_valid_iff g r c d

/-- Witness for C6 at `exB`, cell (0,0), digit 3. -/
theorem claim6_is_valid_iff_witness :
    (exB 0 0 = 0 ∧ 1 ≤ 3 ∧ 3 ≤ 9) ∧
    (SudokuSolver.is_valid exB 0 0 3 = true ↔
      (∀ j, exB 0 j ≠ 3) ∧ (∀ i, exB i 0 ≠ 3) ∧
      ∀ a b : Fin 3, exB (boxIdx 0 a) (boxIdx 0 b) ≠ 3) :=
  ⟨⟨by decide, by decide, by decide⟩,
    claim6_is_valid_iff exB 0 0 3 (by decide) (by decide) (by decide)⟩

/-- C7: `find_empty` returns the first zero cell in row-major order (rows
top to bottom, and within a row columns left to right), and returns none
exactly when no cell holds 0. -/
theorem claim7_find_empty (g : Grid) (r c : Fin 9) :
    (SudokuSolver.find_empty g = some (r, c) ↔
      g r c = 0 ∧ ∀ p : Fin 9 × Fin 9,
        (p.1 < r ∨ (p.1 = r ∧ p.2 < c)) → g p.1 p.2 ≠ 0) ∧
    (SudokuSolver.find_empty g = none ↔
      ∀ p : Fin 9 × Fin 9, g p.1 p.2 ≠ 0) := by
  constructor
  · rw [find_empty_some_iff]
    constructor
    · rintro ⟨hz, hb⟩
      exact ⟨hz, fun p hp => hb p ((rowMajor_lt_iff p.1 p.2 r c).mp hp)⟩
    · rintro ⟨hz, hb⟩
      exact ⟨hz, fun p hp => hb p ((rowMajor_lt_iff p.1 p.2 r c).mpr hp)⟩
  · exact find_empty_none_iff g

/-- Witness for C7 at `exFail`, whose first empty cell is (0,0). -/
theorem claim7_find_empty_witness :
    (SudokuSolver.find_empty exFail = some (0, 0) ↔
      exFail 0 0 = 0 ∧ ∀ p : Fin 9 × Fin 9,
        (p.1 < 0 ∨ (p.1 = 0 ∧ p.2 < 0)) → exFail p.1 p.2 ≠ 0) ∧
    (SudokuSolver.find_empty exFail = none ↔
      ∀ p : Fin 9 × Fin 9, exFail p.1 p.2 ≠ 0) :=
  claim7_find_empty exFail 0 0

/-- C8: the solver always terminates within recursion depth
`emptyCount g`: fuel `emptyCount g + 1` suffices for `solveF` (one fuel
unit per recursive call), and the number of empty cells is at most 81. -/
theorem claim8_terminates (g : Grid) :
    (SudokuSolver.solveF (emptyCount g + 1) g).isSome = true ∧
    emptyCount g ≤ 81 := by
  constructor
  · rw [solveF_equiv, solve_algorithm_eq]
    rfl
  · exact emptyCount_le g

/-- C9: on a grid with no empty cell, `solve` returns true immediately,
leaves the grid unchanged, and records an empty trace. -/
theorem claim9_full_grid (g : Grid) (hfull : ∀ i j, g i j ≠ 0) :
    SudokuSolver.solve g = (true, g, []) := by
  have hfe : SudokuSolver.find_empty g = none :=
    (find_empty_none_iff g).mpr fun p => hfull p.1 p.2
  unfold SudokuSolver.solve
  have hstep : SudokuSolver.solveF (emptyCount g + 1) g = some (true, g, []) := by
    simp only [SudokuSolver.solveF, hfe]
  rw [hstep]
  rfl

/-- Witness for C9 at the full grid `exSolved`. -/
theorem claim9_full_grid_witness :
    (∀ i j : Fin 9, exSolved i j ≠ 0) ∧
    SudokuSolver.solve exSolved = (true, exSolved, []) :=
  ⟨by decide, claim9_full_grid exSolved (by decide)⟩

/-- C10: `SudokuSolver.solve` and
`InteractiveSudokuSolver.solve_algorithm` are equivalent: same boolean,
same final grid, and the step list of `solve` is exactly the state list of
`solve_algorithm` projected by `toStep` — so both traces have the same
length, agree at every index on (row, col) and on the place/backtrack
kind, and agree on the digit of every place step. -/
theorem claim10_equiv (g : Grid) :
    (SudokuSolver.solve g).1 = (InteractiveSudokuSolver.solve_algorithm g).1 ∧
    (SudokuSolver.solve g).2.1 = (InteractiveSudokuSolver.solve_algorithm g).2.1 ∧
    (SudokuSolver.solve g).2.2 =
      (InteractiveSudokuSolver.solve_algorithm g).2.2.map
        InteractiveSudokuSolver.toStep :=
  solve_components g
